import Mathlib

/-!
Verification of the Benchmark and Differential-Verification Engine
(scripts/benchmark.py and templates/verification.py).

Shallow embedding conventions:
* Python floats are modelled as exact rationals; durations and derived
  statistics live in ℚ, memory counters (byte counts from the allocation
  tracer) in ℤ.
* A Python callable that may raise is modelled as a function into Option:
  none models a raised exception, some v a normal return of v.
* The wall clock and the allocation tracer are modelled as an explicit
  environment of per-invocation readings (ProfileEnv), so the profiling
  loop becomes a pure fold over that environment.
* Python round(x, n) uses round-half-to-even; roundTo models it.
* Python sorted is a stable comparison sort; on rational values every
  correct sort returns the same list, so List.insertionSort is an
  extensionally faithful model of it.
* The standard-library stdev returns the square root of the
  Bessel-corrected sample variance; the square root of a rational is
  irrational in general, so the embedding tracks the squared value
  (stdev_sq, std_dev_sq); the source's std_dev is its square root, and
  every statement about the squared value pins down the nonnegative root.
-/

/-- Round-half-to-even to an integer, as Python round does on exact values. -/
def roundHalfEven (q : ℚ) : ℤ :=
  if q - ⌊q⌋ < 1 / 2 then ⌊q⌋
  else if 1 / 2 < q - ⌊q⌋ then ⌊q⌋ + 1
  else if ⌊q⌋ % 2 = 0 then ⌊q⌋ else ⌊q⌋ + 1

/-- Python round(x, n): round to n decimal digits, ties to even. -/
def roundTo (n : ℕ) (q : ℚ) : ℚ :=
  (roundHalfEven (q * 10 ^ n) : ℚ) / 10 ^ n

/-- statistics.mean: sum divided by count; raises (none) on an empty input. -/
def pymean (l : List ℚ) : Option ℚ :=
  if l.length = 0 then none else some (l.sum / (l.length : ℚ))

/-- Python sorted on rational values. Python sorts with a stable comparison
sort; on values in a linear order every correct sort returns the same list,
so insertion sort is an extensionally faithful model. -/
def pysorted (l : List ℚ) : List ℚ :=
  List.insertionSort (fun a b => a ≤ b) l

/-- statistics.median: sort, take the middle element (odd count) or the
average of the two middle elements (even count); raises (none) on empty. -/
def pymedian (l : List ℚ) : Option ℚ :=
  if l.length = 0 then none
  else if l.length % 2 = 1 then (pysorted l)[l.length / 2]?
  else
    match (pysorted l)[l.length / 2 - 1]?, (pysorted l)[l.length / 2]? with
    | some a, some b => some ((a + b) / 2)
    | _, _ => none

/-- Python min over a list: fold of binary min over the tail, seeded with the
head; raises (none) on an empty input. -/
def pymin : List ℚ → Option ℚ
  | [] => none
  | x :: xs => some (xs.foldl min x)

/-- Python max over a list, analogously. -/
def pymax : List ℚ → Option ℚ
  | [] => none
  | x :: xs => some (xs.foldl max x)

/-- statistics stdev sum-of-squared-deviations step: with c the mean, the
library computes the sum of (x - c)^2 and subtracts the rounding-correction
term (sum of (x - c))^2 / n, which is 0 in exact arithmetic. -/
def ss (l : List ℚ) : ℚ :=
  let c := l.sum / (l.length : ℚ)
  ((l.map fun x => (x - c) ^ 2).sum) - ((l.map fun x => x - c).sum) ^ 2 / (l.length : ℚ)

/-- Square of statistics.stdev: the Bessel-corrected sample variance as the
library computes it (meaningful for length at least 2). -/
def stdev_sq (l : List ℚ) : ℚ :=
  ss l / ((l.length : ℚ) - 1)

/-- The textbook Bessel-corrected sample variance, written exactly as the
spec words it: sum of squared deviations from the mean, divided by n - 1. -/
def besselVariance (l : List ℚ) : ℚ :=
  (l.map fun x => (x - l.sum / (l.length : ℚ)) ^ 2).sum / ((l.length : ℚ) - 1)

/-- Bundle of the five summary statistics of the Statistics Summarizer;
stddev is tracked by its square (see the header note). -/
structure SummaryStats where
  mean : ℚ
  median : ℚ
  min : ℚ
  max : ℚ
  stddev_sq : ℚ
deriving DecidableEq

/-- The Statistics Summarizer: computes all five statistics of a sample
sequence, propagating the insufficient-data failure of any component.
The stddev component is guarded exactly as the source guards it
(value only when more than one sample, else 0). -/
def summarize (l : List ℚ) : Option SummaryStats := do
  let m ← pymean l
  let md ← pymedian l
  let mn ← pymin l
  let mx ← pymax l
  pure ⟨m, md, mn, mx, if 1 < l.length then stdev_sq l else 0⟩

/-- BenchmarkResult dataclass: achieved run count, raw duration samples,
and the tracer's peak and current byte counts. -/
structure BenchmarkResult where
  runs : ℕ
  times : List ℚ
  memory_peak : ℤ
  memory_current : ℤ
deriving DecidableEq

/-- avg_time property: statistics.mean of the samples. -/
def BenchmarkResult.avg_time (r : BenchmarkResult) : Option ℚ :=
  pymean r.times

/-- median_time property. -/
def BenchmarkResult.median_time (r : BenchmarkResult) : Option ℚ :=
  pymedian r.times

/-- min_time property. -/
def BenchmarkResult.min_time (r : BenchmarkResult) : Option ℚ :=
  pymin r.times

/-- max_time property. -/
def BenchmarkResult.max_time (r : BenchmarkResult) : Option ℚ :=
  pymax r.times

/-- Square of the std_dev property: stdev of the samples when there is more
than one, else 0 (the source's guard). -/
def BenchmarkResult.std_dev_sq (r : BenchmarkResult) : ℚ :=
  if 1 < r.times.length then stdev_sq r.times else 0

/-- Environment of one profiling pass: dur k is the outcome of the k-th
invocation of the callable overall (none models a raised exception, some t
a return after wall-clock duration t); traced i is the pair of tracer
readings (current, peak) taken after measured iteration i; finalTraced the
reading taken once after the loop. -/
structure ProfileEnv where
  dur : ℕ → Option ℚ
  traced : ℕ → ℤ × ℤ
  finalTraced : ℤ × ℤ

/-- One measured iteration of benchmark_function: invoke the callable
(invocation index warmup + i); on an exception skip, contributing no
sample; on success append the duration and, when memory is measured, fold
the tracer's peak reading into the running maximum. -/
def measIter (env : ProfileEnv) (warmup : ℕ) (measure_memory : Bool)
    (acc : List ℚ × ℤ) (i : ℕ) : List ℚ × ℤ :=
  match env.dur (warmup + i) with
  | none => acc
  | some t =>
    (acc.1 ++ [t], if measure_memory then max acc.2 (env.traced i).2 else acc.2)

/-- benchmark_function: warmup invocations (indices 0 .. warmup-1) are made
and every outcome, error or value, is discarded; the measured phase folds
measIter over the run indices; after the loop a final tracer reading is
folded into the peak and reported as current, when memory is measured.
The returned runs field is the number of collected samples. -/
def benchmark_function (env : ProfileEnv) (runs warmup : ℕ)
    (measure_memory : Bool) : BenchmarkResult :=
  let acc := (List.range runs).foldl (measIter env warmup measure_memory) ([], 0)
  let memory_peak := if measure_memory then max acc.2 env.finalTraced.2 else acc.2
  let memory_current := if measure_memory then env.finalTraced.1 else 0
  { runs := acc.1.length
    times := acc.1
    memory_peak := memory_peak
    memory_current := memory_current }

/-- Three-way comparison verdict. -/
inductive Verdict
  | improved
  | regressed
  | unchanged
deriving DecidableEq

/-- speedup_factor value: a finite rounded factor, or infinite when the
candidate mean time is not positive. -/
inductive Speedup
  | finite (factor : ℚ)
  | infinite
deriving DecidableEq

/-- The two exception classes compare_results can raise: a statistics
error from taking the mean of an empty sample list, and the division by a
zero baseline mean time. -/
inductive CompareError
  | statisticsError
  | zeroDivisionError
deriving DecidableEq

/-- The dictionary compare_results returns, with the same rounding as the
source applies per field. -/
structure Comparison where
  before_ms : ℚ
  after_ms : ℚ
  improvement_percent : ℚ
  speedup_factor : Speedup
  memory_before_kb : ℚ
  memory_after_kb : ℚ
  memory_improvement_percent : ℚ
  verdict : Verdict
deriving DecidableEq

/-- Result of compare_results: the comparison dictionary, or the raised
exception. -/
inductive CompareResult
  | ok (c : Comparison)
  | error (e : CompareError)
deriving DecidableEq

/-- compare_results: time improvement percentage from the two mean times
(raising on an empty sample list or a zero baseline mean), memory
improvement percentage guarded to 0 when the baseline peak is not positive,
rounded report fields, and the three-way verdict from the unrounded time
improvement. -/
def compare_results (before after : BenchmarkResult) : CompareResult :=
  match before.avg_time, after.avg_time with
  | some b, some a =>
    if b = 0 then .error .zeroDivisionError
    else
      let time_improvement := (b - a) / b * 100
      let memory_improvement :=
        if 0 < before.memory_peak then
          ((before.memory_peak : ℚ) - (after.memory_peak : ℚ))
            / (before.memory_peak : ℚ) * 100
        else 0
      .ok
        { before_ms := roundTo 4 (b * 1000)
          after_ms := roundTo 4 (a * 1000)
          improvement_percent := roundTo 2 time_improvement
          speedup_factor :=
            if 0 < a then .finite (roundTo 2 (b / a)) else .infinite
          memory_before_kb := roundTo 2 ((before.memory_peak : ℚ) / 1024)
          memory_after_kb := roundTo 2 ((after.memory_peak : ℚ) / 1024)
          memory_improvement_percent := roundTo 2 memory_improvement
          verdict :=
            if 0 < time_improvement then .improved
            else if time_improvement < 0 then .regressed
            else .unchanged }
  | _, _ => .error .statisticsError

/-- Structured values a parsed literal can take (the shapes
ast.literal_eval can produce). -/
inductive PyVal
  | bool (b : Bool)
  | int (n : ℤ)
  | float (q : ℚ)
  | str (s : String)
  | list (xs : List PyVal)
  | tuple (xs : List PyVal)
  | dict (entries : List (PyVal × PyVal))

/-- str.lower: lower-case every character of the string. -/
def pyLower (s : String) : String :=
  ⟨s.data.map Char.toLower⟩

/-- parse_arg: case-insensitive true and false become booleans; otherwise
the argument is handed to ast.literal_eval — modelled as an oracle whose
none outcome stands for the ValueError or SyntaxError the source catches —
and on that failure the raw string is returned unchanged. -/
def parse_arg (literal_eval : String → Option PyVal) (arg : String) : PyVal :=
  if pyLower arg = "true" then .bool true
  else if pyLower arg = "false" then .bool false
  else
    match literal_eval arg with
    | some v => v
    | none => .str arg

/-- Per-case outcome of verify_optimization's loop body: invoke the
original; if it raises the except branch records a failure without ever
invoking the optimized callable; otherwise invoke the optimized callable;
if it raises, record a failure; otherwise the case matches exactly when
the two results are equal. -/
def case_matched {α β : Type} [DecidableEq β]
    (original optimized : α → Option β) (args : α) : Bool :=
  match original args with
  | none => false
  | some original_result =>
    match optimized args with
    | none => false
    | some optimized_result => decide (original_result = optimized_result)

/-- verify_optimization: fold over the corpus, conjoining the running
all_passed flag with each case's outcome; every case is visited. -/
def verify_optimization {α β : Type} [DecidableEq β]
    (original optimized : α → Option β) (test_cases : List α) : Bool :=
  test_cases.foldl
    (fun all_passed args => all_passed && case_matched original optimized args)
    true

/-! ## Helper lemmas -/

theorem foldl_min_le (xs : List ℚ) :
    ∀ x : ℚ, xs.foldl min x ≤ x ∧ ∀ y ∈ xs, xs.foldl min x ≤ y := by
  induction xs with
  | nil => intro x; exact ⟨le_refl x, by simp⟩
  | cons z zs ih =>
    intro x
    simp only [List.foldl_cons]
    obtain ⟨h1, h2⟩ := ih (min x z)
    refine ⟨h1.trans (min_le_left x z), ?_⟩
    intro y hy
    rcases List.mem_cons.mp hy with rfl | hy
    · exact h1.trans (min_le_right x y)
    · exact h2 y hy

theorem foldl_min_mem (xs : List ℚ) :
    ∀ x : ℚ, xs.foldl min x = x ∨ xs.foldl min x ∈ xs := by
  induction xs with
  | nil => intro x; exact Or.inl rfl
  | cons z zs ih =>
    intro x
    simp only [List.foldl_cons]
    rcases ih (min x z) with h | h
    · rw [h]
      rcases min_choice x z with h2 | h2
      · rw [h2]; exact Or.inl rfl
      · rw [h2]; exact Or.inr (List.mem_cons_self z zs)
    · exact Or.inr (List.mem_cons_of_mem z h)

theorem foldl_max_ge (xs : List ℚ) :
    ∀ x : ℚ, x ≤ xs.foldl max x ∧ ∀ y ∈ xs, y ≤ xs.foldl max x := by
  induction xs with
  | nil => intro x; exact ⟨le_refl x, by simp⟩
  | cons z zs ih =>
    intro x
    simp only [List.foldl_cons]
    obtain ⟨h1, h2⟩ := ih (max x z)
    refine ⟨(le_max_left x z).trans h1, ?_⟩
    intro y hy
    rcases List.mem_cons.mp hy with rfl | hy
    · exact (le_max_right x y).trans h1
    · exact h2 y hy

theorem foldl_max_mem (xs : List ℚ) :
    ∀ x : ℚ, xs.foldl max x = x ∨ xs.foldl max x ∈ xs := by
  induction xs with
  | nil => intro x; exact Or.inl rfl
  | cons z zs ih =>
    intro x
    simp only [List.foldl_cons]
    rcases ih (max x z) with h | h
    · rw [h]
      rcases max_choice x z with h2 | h2
      · rw [h2]; exact Or.inl rfl
      · rw [h2]; exact Or.inr (List.mem_cons_self z zs)
    · exact Or.inr (List.mem_cons_of_mem z h)

theorem pymin_spec {l : List ℚ} {mn : ℚ} (h : pymin l = some mn) :
    mn ∈ l ∧ ∀ y ∈ l, mn ≤ y := by
  match l with
  | [] => simp [pymin] at h
  | x :: xs =>
    simp only [pymin, Option.some.injEq] at h
    subst h
    constructor
    · rcases foldl_min_mem xs x with h2 | h2
      · rw [h2]; exact List.mem_cons_self x xs
      · exact List.mem_cons_of_mem x h2
    · intro y hy
      obtain ⟨h1, h2⟩ := foldl_min_le xs x
      rcases List.mem_cons.mp hy with rfl | hy
      · exact h1
      · exact h2 y hy

theorem pymax_spec {l : List ℚ} {mx : ℚ} (h : pymax l = some mx) :
    mx ∈ l ∧ ∀ y ∈ l, y ≤ mx := by
  match l with
  | [] => simp [pymax] at h
  | x :: xs =>
    simp only [pymax, Option.some.injEq] at h
    subst h
    constructor
    · rcases foldl_max_mem xs x with h2 | h2
      · rw [h2]; exact List.mem_cons_self x xs
      · exact List.mem_cons_of_mem x h2
    · intro y hy
      obtain ⟨h1, h2⟩ := foldl_max_ge xs x
      rcases List.mem_cons.mp hy with rfl | hy
      · exact h1
      · exact h2 y hy

theorem pymin_isSome {l : List ℚ} (h : l ≠ []) : ∃ mn, pymin l = some mn := by
  match l with
  | [] => exact absurd rfl h
  | x :: xs => exact ⟨xs.foldl min x, rfl⟩

theorem pymax_isSome {l : List ℚ} (h : l ≠ []) : ∃ mx, pymax l = some mx := by
  match l with
  | [] => exact absurd rfl h
  | x :: xs => exact ⟨xs.foldl max x, rfl⟩

theorem length_pysorted (l : List ℚ) : (pysorted l).length = l.length :=
  List.length_insertionSort _ l

theorem mem_of_mem_pysorted {l : List ℚ} {a : ℚ} (h : a ∈ pysorted l) : a ∈ l :=
  (List.perm_insertionSort _ l).mem_iff.mp h

theorem pymedian_isSome_between {l : List ℚ} {mn mx : ℚ}
    (hmn : pymin l = some mn) (hmx : pymax l = some mx) :
    ∃ md, pymedian l = some md ∧ mn ≤ md ∧ md ≤ mx := by
  have hne : l ≠ [] := by
    intro h
    subst h
    simp [pymin] at hmn
  have hlen : l.length ≠ 0 := fun h => hne (List.length_eq_zero.mp h)
  have hpos : 0 < l.length := Nat.pos_of_ne_zero hlen
  have hslen : (pysorted l).length = l.length := length_pysorted l
  have hbound : ∀ y ∈ pysorted l, mn ≤ y ∧ y ≤ mx := by
    intro y hy
    have hyl : y ∈ l := mem_of_mem_pysorted hy
    exact ⟨(pymin_spec hmn).2 y hyl, (pymax_spec hmx).2 y hyl⟩
  by_cases hodd : l.length % 2 = 1
  · have hidx : l.length / 2 < (pysorted l).length := by
      rw [hslen]
      exact Nat.div_lt_self hpos one_lt_two
    have hget : (pysorted l)[l.length / 2]? = some ((pysorted l)[l.length / 2]) :=
      List.getElem?_eq_getElem hidx
    refine ⟨(pysorted l)[l.length / 2], ?_, ?_, ?_⟩
    · simp only [pymedian, if_neg hlen, if_pos hodd]
      exact hget
    · exact (hbound _ (List.getElem_mem hidx)).1
    · exact (hbound _ (List.getElem_mem hidx)).2
  · have h2 : 2 ≤ l.length := by omega
    have hidx : l.length / 2 < (pysorted l).length := by
      rw [hslen]
      exact Nat.div_lt_self hpos one_lt_two
    have hidx1 : l.length / 2 - 1 < (pysorted l).length := by
      omega
    have hget : (pysorted l)[l.length / 2]? = some ((pysorted l)[l.length / 2]) :=
      List.getElem?_eq_getElem hidx
    have hget1 : (pysorted l)[l.length / 2 - 1]? = some ((pysorted l)[l.length / 2 - 1]) :=
      List.getElem?_eq_getElem hidx1
    obtain ⟨ha1, ha2⟩ := hbound _ (List.getElem_mem hidx1)
    obtain ⟨hb1, hb2⟩ := hbound _ (List.getElem_mem hidx)
    refine ⟨((pysorted l)[l.length / 2 - 1] + (pysorted l)[l.length / 2]) / 2, ?_, ?_, ?_⟩
    · simp only [pymedian, if_neg hlen, if_neg hodd, hget, hget1]
    · linarith
    · linarith

theorem length_mul_le_sum (l : List ℚ) (c : ℚ) (h : ∀ x ∈ l, c ≤ x) :
    (l.length : ℚ) * c ≤ l.sum := by
  have h2 := List.card_nsmul_le_sum l c h
  rwa [nsmul_eq_mul] at h2

theorem sum_le_length_mul (l : List ℚ) (c : ℚ) (h : ∀ x ∈ l, x ≤ c) :
    l.sum ≤ (l.length : ℚ) * c := by
  have h2 := List.sum_le_card_nsmul l c h
  rwa [nsmul_eq_mul] at h2

theorem pymean_between {l : List ℚ} {mn mx m : ℚ}
    (hmn : pymin l = some mn) (hmx : pymax l = some mx)
    (hm : pymean l = some m) : mn ≤ m ∧ m ≤ mx := by
  have hne : l.length ≠ 0 := by
    intro h
    simp [pymean, h] at hm
  have hpos : (0 : ℚ) < (l.length : ℚ) := by
    exact_mod_cast Nat.pos_of_ne_zero hne
  have hmval : m = l.sum / (l.length : ℚ) := by
    simp only [pymean, if_neg hne, Option.some.injEq] at hm
    exact hm.symm
  subst hmval
  constructor
  · rw [le_div_iff₀ hpos]
    have := length_mul_le_sum l mn (pymin_spec hmn).2
    linarith [this]
  · rw [div_le_iff₀ hpos]
    have := sum_le_length_mul l mx (pymax_spec hmx).2
    linarith [this]

theorem sum_map_sub_const (l : List ℚ) (c : ℚ) :
    (l.map fun x => x - c).sum = l.sum - (l.length : ℚ) * c := by
  induction l with
  | nil => simp
  | cons x xs ih =>
    simp only [List.map_cons, List.sum_cons, List.length_cons, ih]
    push_cast
    ring

theorem ss_eq_sum_sq_dev (l : List ℚ) (h : l.length ≠ 0) :
    ss l = (l.map fun x => (x - l.sum / (l.length : ℚ)) ^ 2).sum := by
  have hn : (l.length : ℚ) ≠ 0 := Nat.cast_ne_zero.mpr h
  have hz : l.sum - (l.length : ℚ) * (l.sum / (l.length : ℚ)) = 0 := by
    field_simp
  simp only [ss, sum_map_sub_const, hz]
  norm_num

theorem foldl_measIter_fst (env : ProfileEnv) (warmup : ℕ) (mm : Bool) :
    ∀ (idxs : List ℕ) (ts : List ℚ) (m : ℤ),
      (idxs.foldl (measIter env warmup mm) (ts, m)).1 =
        ts ++ idxs.filterMap fun i => env.dur (warmup + i) := by
  intro idxs
  induction idxs with
  | nil => intro ts m; simp
  | cons i is ih =>
    intro ts m
    simp only [List.foldl_cons, List.filterMap_cons]
    cases h : env.dur (warmup + i) with
    | none => simp only [measIter, h, ih]
    | some t => simp only [measIter, h, ih, List.append_assoc, List.singleton_append]

theorem foldl_measIter_congr (env env2 : ProfileEnv) (warmup : ℕ) (mm : Bool)
    (htr : env2.traced = env.traced) :
    ∀ idxs : List ℕ, (∀ i ∈ idxs, env2.dur (warmup + i) = env.dur (warmup + i)) →
      ∀ (ts : List ℚ) (m : ℤ),
        idxs.foldl (measIter env2 warmup mm) (ts, m) =
          idxs.foldl (measIter env warmup mm) (ts, m) := by
  intro idxs
  induction idxs with
  | nil => intro _ ts m; rfl
  | cons i is ih =>
    intro hdur ts m
    have hi : env2.dur (warmup + i) = env.dur (warmup + i) :=
      hdur i (List.mem_cons_self i is)
    have his : ∀ j ∈ is, env2.dur (warmup + j) = env.dur (warmup + j) :=
      fun j hj => hdur j (List.mem_cons_of_mem i hj)
    simp only [List.foldl_cons]
    cases h : env.dur (warmup + i) with
    | none =>
      simp only [measIter, hi, h, htr]
      exact ih his ts m
    | some t =>
      simp only [measIter, hi, h, htr]
      exact ih his (ts ++ [t]) _

theorem foldl_and_eq_all {α : Type} (p : α → Bool) :
    ∀ (l : List α) (b : Bool), l.foldl (fun acc a => acc && p a) b = (b && l.all p) := by
  intro l
  induction l with
  | nil => intro b; simp
  | cons x xs ih =>
    intro b
    simp only [List.foldl_cons, List.all_cons, ih, Bool.and_assoc]

theorem verify_optimization_eq_all {α β : Type} [DecidableEq β]
    (original optimized : α → Option β) (test_cases : List α) :
    verify_optimization original optimized test_cases =
      test_cases.all (case_matched original optimized) := by
  simp only [verify_optimization, foldl_and_eq_all, Bool.true_and]

theorem roundTo_zero (n : ℕ) : roundTo n 0 = 0 := by
  norm_num [roundTo, roundHalfEven]

/-! ## Claim theorems -/

/-- C5: for every benchmark result with a non-empty sequence of duration
samples, the summary statistics satisfy min_time at most avg_time at most
max_time, and min_time at most median_time at most max_time. -/
theorem summary_statistics_bounds (r : BenchmarkResult) (h : r.times ≠ []) :
    ∃ mn mx m md,
      r.min_time = some mn ∧ r.max_time = some mx ∧
      r.avg_time = some m ∧ r.median_time = some md ∧
      mn ≤ m ∧ m ≤ mx ∧ mn ≤ md ∧ md ≤ mx := by
  obtain ⟨mn, hmn⟩ := pymin_isSome h
  obtain ⟨mx, hmx⟩ := pymax_isSome h
  have hlen : r.times.length ≠ 0 := fun h0 => h (List.length_eq_zero.mp h0)
  have hm : pymean r.times = some (r.times.sum / (r.times.length : ℚ)) := by
    simp [pymean, hlen]
  obtain ⟨md, hmd, hmd1, hmd2⟩ := pymedian_isSome_between hmn hmx
  obtain ⟨hm1, hm2⟩ := pymean_between hmn hmx hm
  exact ⟨mn, mx, _, md, hmn, hmx, hm, hmd, hm1, hm2, hmd1, hmd2⟩

/-- C5 witness: the bounds evaluated on the concrete sample list 3, 1, 2. -/
theorem summary_statistics_bounds_witness :
    ∃ mn mx m md,
      (⟨3, [3, 1, 2], 0, 0⟩ : BenchmarkResult).min_time = some mn ∧
      (⟨3, [3, 1, 2], 0, 0⟩ : BenchmarkResult).max_time = some mx ∧
      (⟨3, [3, 1, 2], 0, 0⟩ : BenchmarkResult).avg_time = some m ∧
      (⟨3, [3, 1, 2], 0, 0⟩ : BenchmarkResult).median_time = some md ∧
      mn ≤ m ∧ m ≤ mx ∧ mn ≤ md ∧ md ≤ mx :=
  summary_statistics_bounds ⟨3, [3, 1, 2], 0, 0⟩ (by simp)

/-- C6: the Statistics Summarizer fails with its insufficient-data error
exactly on the empty sample sequence: it returns none on empty input,
never a numeric bundle, and on every non-empty input it succeeds. -/
theorem summarize_none_iff_empty (l : List ℚ) :
    summarize l = none ↔ l = [] := by
  constructor
  · intro h
    by_contra hne
    obtain ⟨mn, hmn⟩ := pymin_isSome hne
    obtain ⟨mx, hmx⟩ := pymax_isSome hne
    have hlen : l.length ≠ 0 := fun h0 => hne (List.length_eq_zero.mp h0)
    have hm : pymean l = some (l.sum / (l.length : ℚ)) := by
      simp [pymean, hlen]
    obtain ⟨md, hmd, _, _⟩ := pymedian_isSome_between hmn hmx
    simp [summarize, hm, hmd, hmn, hmx] at h
  · intro h
    subst h
    rfl

/-- C7: for at least two samples the squared std_dev property equals the
Bessel-corrected sample variance (squared deviations from the mean divided
by n - 1, the spec's formula), and for exactly one sample it is 0, not an
error. -/
theorem std_dev_sq_bessel (r : BenchmarkResult) :
    (2 ≤ r.times.length → r.std_dev_sq = besselVariance r.times) ∧
    (r.times.length = 1 → r.std_dev_sq = 0) := by
  constructor
  · intro h2
    have hgt : 1 < r.times.length := h2
    have hlen : r.times.length ≠ 0 := by omega
    simp only [BenchmarkResult.std_dev_sq, if_pos hgt, stdev_sq, besselVariance,
      ss_eq_sum_sq_dev r.times hlen]
  · intro h1
    have : ¬ 1 < r.times.length := by omega
    simp only [BenchmarkResult.std_dev_sq, if_neg this]

/-- C7 witness: samples 1 and 3 give squared spread equal to the Bessel
variance, and the single sample 5 gives 0. -/
theorem std_dev_sq_bessel_witness :
    (⟨2, [1, 3], 0, 0⟩ : BenchmarkResult).std_dev_sq = besselVariance [1, 3] ∧
    (⟨1, [5], 0, 0⟩ : BenchmarkResult).std_dev_sq = 0 :=
  ⟨(std_dev_sq_bessel ⟨2, [1, 3], 0, 0⟩).1 (by simp),
   (std_dev_sq_bessel ⟨1, [5], 0, 0⟩).2 (by simp)⟩

/-- C3: a case on which either implementation raises is recorded as not
matched; the fold continues over the remaining corpus rather than
aborting; all_passed is true exactly when every case matched; and the
empty corpus passes. -/
theorem verify_optimization_all_passed {α β : Type} [DecidableEq β]
    (original optimized : α → Option β) (test_cases : List α) :
    (∀ args, (original args = none ∨ optimized args = none) →
      case_matched original optimized args = false) ∧
    (verify_optimization original optimized test_cases = true ↔
      ∀ args ∈ test_cases, case_matched original optimized args = true) ∧
    (∀ c rest, verify_optimization original optimized (c :: rest) =
      (case_matched original optimized c && verify_optimization original optimized rest)) ∧
    verify_optimization original optimized ([] : List α) = true := by
  refine ⟨?_, ?_, ?_, rfl⟩
  · intro args h
    rcases h with h | h
    · simp [case_matched, h]
    · cases ho : original args with
      | none => simp [case_matched, ho]
      | some v => simp [case_matched, ho, h]
  · rw [verify_optimization_eq_all]
    exact List.all_eq_true
  · intro c rest
    rw [verify_optimization_eq_all, verify_optimization_eq_all, List.all_cons]

/-- C3 witness: a raising reference records a failed case, and the empty
corpus passes. -/
theorem verify_optimization_all_passed_witness :
    case_matched (fun _ : ℕ => (none : Option ℕ)) (fun n => some n) 3 = false ∧
    verify_optimization (fun _ : ℕ => (none : Option ℕ)) (fun n => some n) [] = true :=
  ⟨(verify_optimization_all_passed (fun _ : ℕ => (none : Option ℕ)) (fun n => some n) []).1
      3 (Or.inl rfl),
   (verify_optimization_all_passed (fun _ : ℕ => (none : Option ℕ)) (fun n => some n) []).2.2.2⟩

/-- C8: swapping the reference and candidate callables leaves every case's
matched flag unchanged, hence also the all_passed result. -/
theorem verify_optimization_swap {α β : Type} [DecidableEq β]
    (original optimized : α → Option β) :
    (∀ args, case_matched original optimized args = case_matched optimized original args) ∧
    ∀ test_cases : List α,
      verify_optimization original optimized test_cases =
        verify_optimization optimized original test_cases := by
  have hcase : ∀ args,
      case_matched original optimized args = case_matched optimized original args := by
    intro args
    cases ho : original args with
    | none =>
      cases hp : optimized args with
      | none => simp [case_matched, ho, hp]
      | some v => simp [case_matched, ho, hp]
    | some v =>
      cases hp : optimized args with
      | none => simp [case_matched, ho, hp]
      | some w => simp [case_matched, ho, hp, eq_comm]
  refine ⟨hcase, ?_⟩
  intro test_cases
  have hfun : case_matched original optimized = case_matched optimized original :=
    funext hcase
  rw [verify_optimization_eq_all, verify_optimization_eq_all, hfun]

/-- C10: when the reference implementation raises on a case, the recorded
outcome is a failure and is the same whatever the candidate does on that
case: it is computed without consulting the candidate's output. -/
theorem case_matched_reference_raises {α β : Type} [DecidableEq β]
    (original : α → Option β) (args : α) (h : original args = none)
    (opt1 opt2 : α → Option β) :
    case_matched original opt1 args = false ∧
    case_matched original opt1 args = case_matched original opt2 args := by
  simp [case_matched, h]

/-- C10 witness: a reference raising at 0 gives a failed case for two
candidates that differ at 0. -/
theorem case_matched_reference_raises_witness :
    case_matched (fun _ : ℕ => (none : Option ℕ)) (fun n => some n) 0 = false ∧
    case_matched (fun _ : ℕ => (none : Option ℕ)) (fun n => some n) 0 =
      case_matched (fun _ : ℕ => (none : Option ℕ)) (fun n => some (n + 1)) 0 :=
  case_matched_reference_raises (fun _ : ℕ => (none : Option ℕ)) 0 rfl
    (fun n => some n) (fun n => some (n + 1))

/-- C9: parse_arg is total and its value is fully determined: a
case-insensitive true or false becomes the boolean; otherwise the literal
parser's structured value when it succeeds; and on a parse failure the raw
string comes back unchanged — no input is rejected with an error. -/
theorem parse_arg_total (literal_eval : String → Option PyVal) (arg : String) :
    (pyLower arg = "true" → parse_arg literal_eval arg = .bool true) ∧
    (pyLower arg ≠ "true" → pyLower arg = "false" →
      parse_arg literal_eval arg = .bool false) ∧
    (pyLower arg ≠ "true" → pyLower arg ≠ "false" →
      parse_arg literal_eval arg = (literal_eval arg).getD (.str arg)) := by
  refine ⟨?_, ?_, ?_⟩
  · intro h
    simp [parse_arg, h]
  · intro h1 h2
    simp [parse_arg, h1, h2]
  · intro h1 h2
    cases h : literal_eval arg with
    | none => simp [parse_arg, h1, h2, h]
    | some v => simp [parse_arg, h1, h2, h]

/-- C9 witness: a mixed-case TruE coerces to the boolean, and an
unparsable token falls back to the raw string. -/
theorem parse_arg_total_witness :
    parse_arg (fun _ => none) "TruE" = .bool true ∧
    parse_arg (fun _ => none) "abc def" = .str "abc def" :=
  ⟨(parse_arg_total (fun _ => none) "TruE").1 (by decide),
   ((parse_arg_total (fun _ => none) "abc def").2.2 (by decide) (by decide)).trans rfl⟩

/-- C2: the profiler's samples are exactly the durations of the successful
measured invocations, in order — a raising iteration contributes no
sample; the returned runs field equals the number of samples and is at
most the requested run count; and the result does not depend on the
outcomes of the warmup invocations, every error raised there being
swallowed. -/
theorem benchmark_function_run_count (env : ProfileEnv) (runs warmup : ℕ)
    (measure_memory : Bool) :
    (benchmark_function env runs warmup measure_memory).times =
      ((List.range runs).filterMap fun i => env.dur (warmup + i)) ∧
    (benchmark_function env runs warmup measure_memory).runs =
      (benchmark_function env runs warmup measure_memory).times.length ∧
    (benchmark_function env runs warmup measure_memory).runs ≤ runs ∧
    ∀ env2 : ProfileEnv,
      (∀ i, i < runs → env2.dur (warmup + i) = env.dur (warmup + i)) →
      env2.traced = env.traced → env2.finalTraced = env.finalTraced →
      benchmark_function env2 runs warmup measure_memory =
        benchmark_function env runs warmup measure_memory := by
  have htimes : (benchmark_function env runs warmup measure_memory).times =
      (List.range runs).filterMap fun i => env.dur (warmup + i) := by
    simp only [benchmark_function]
    rw [foldl_measIter_fst]
    simp
  refine ⟨htimes, rfl, ?_, ?_⟩
  · show (benchmark_function env runs warmup measure_memory).times.length ≤ runs
    rw [htimes]
    calc ((List.range runs).filterMap fun i => env.dur (warmup + i)).length
        ≤ (List.range runs).length := List.length_filterMap_le _ _
      _ = runs := List.length_range runs
  · intro env2 hdur htr hfin
    have hfold : (List.range runs).foldl (measIter env2 warmup measure_memory) ([], 0) =
        (List.range runs).foldl (measIter env warmup measure_memory) ([], 0) := by
      apply foldl_measIter_congr env env2 warmup measure_memory htr
      intro i hi
      exact hdur i (List.mem_range.mp hi)
    simp only [benchmark_function, hfold, htr, hfin]

/-- C2 witness: a pass with 4 requested runs and 1 warmup invocation whose
third measured call raises; an environment that additionally raises during
warmup produces the identical result. -/
theorem benchmark_function_run_count_witness :
    benchmark_function ⟨fun k => if k = 0 then none else if k = 3 then none else some 1,
        fun _ => (0, 0), (0, 0)⟩ 4 1 true =
      benchmark_function ⟨fun k => if k = 3 then none else some 1,
        fun _ => (0, 0), (0, 0)⟩ 4 1 true :=
  (benchmark_function_run_count ⟨fun k => if k = 3 then none else some 1,
      fun _ => (0, 0), (0, 0)⟩ 4 1 true).2.2.2
    ⟨fun k => if k = 0 then none else if k = 3 then none else some 1,
      fun _ => (0, 0), (0, 0)⟩
    (fun i _ => by
      have h1 : 1 + i ≠ 0 := by omega
      simp only [h1, if_false])
    rfl rfl

/-- Trichotomy of the verdict if-chain of compare_results. -/
theorem verdict_cases (d : ℚ) :
    ((if 0 < d then Verdict.improved
      else if d < 0 then Verdict.regressed else Verdict.unchanged) = Verdict.improved ↔ 0 < d) ∧
    ((if 0 < d then Verdict.improved
      else if d < 0 then Verdict.regressed else Verdict.unchanged) = Verdict.regressed ↔ d < 0) ∧
    ((if 0 < d then Verdict.improved
      else if d < 0 then Verdict.regressed else Verdict.unchanged) = Verdict.unchanged ↔ d = 0) := by
  by_cases h1 : 0 < d
  · simp [h1, asymm h1, ne_of_gt h1]
  · by_cases h2 : d < 0
    · simp [h1, h2, ne_of_lt h2]
    · have h3 : d = 0 := le_antisymm (not_lt.mp h1) (not_lt.mp h2)
      simp [h1, h2, h3]

/-- C1: with a positive baseline mean time the comparison succeeds, its
reported improvement percentage is the rounded time delta
(baseline mean - candidate mean) / baseline mean * 100, and the verdict is
improved, regressed or unchanged exactly as that delta is positive,
negative or zero; the 10 ms versus 5 ms scenario yields speedup factor 2,
time delta 50 and verdict improved. -/
theorem compare_results_verdict (before after : BenchmarkResult) (b a : ℚ)
    (hb : before.avg_time = some b) (ha : after.avg_time = some a)
    (hpos : 0 < b) :
    (∃ c : Comparison, compare_results before after = .ok c ∧
      c.improvement_percent = roundTo 2 ((b - a) / b * 100) ∧
      (c.verdict = .improved ↔ 0 < (b - a) / b * 100) ∧
      (c.verdict = .regressed ↔ (b - a) / b * 100 < 0) ∧
      (c.verdict = .unchanged ↔ (b - a) / b * 100 = 0)) ∧
    compare_results ⟨1, [1 / 100], 0, 0⟩ ⟨1, [1 / 200], 0, 0⟩ =
      .ok { before_ms := 10, after_ms := 5, improvement_percent := 50,
            speedup_factor := .finite 2, memory_before_kb := 0,
            memory_after_kb := 0, memory_improvement_percent := 0,
            verdict := .improved } := by
  have hbne : ¬ b = 0 := ne_of_gt hpos
  constructor
  · refine ⟨{ before_ms := roundTo 4 (b * 1000)
              after_ms := roundTo 4 (a * 1000)
              improvement_percent := roundTo 2 ((b - a) / b * 100)
              speedup_factor :=
                if 0 < a then .finite (roundTo 2 (b / a)) else .infinite
              memory_before_kb := roundTo 2 ((before.memory_peak : ℚ) / 1024)
              memory_after_kb := roundTo 2 ((after.memory_peak : ℚ) / 1024)
              memory_improvement_percent := roundTo 2
                (if 0 < before.memory_peak then
                  ((before.memory_peak : ℚ) - (after.memory_peak : ℚ))
                    / (before.memory_peak : ℚ) * 100
                else 0)
              verdict :=
                if 0 < (b - a) / b * 100 then .improved
                else if (b - a) / b * 100 < 0 then .regressed
                else .unchanged }, ?_, rfl, ?_, ?_, ?_⟩
    · simp only [compare_results, hb, ha, if_neg hbne]
    · exact (verdict_cases ((b - a) / b * 100)).1
    · exact (verdict_cases ((b - a) / b * 100)).2.1
    · exact (verdict_cases ((b - a) / b * 100)).2.2
  · norm_num [compare_results, BenchmarkResult.avg_time, pymean, roundTo, roundHalfEven]

/-- C1 witness: the theorem applied to the 10 ms baseline and 5 ms
candidate of scenario D. -/
theorem compare_results_verdict_witness :
    compare_results ⟨1, [1 / 100], 0, 0⟩ ⟨1, [1 / 200], 0, 0⟩ =
      .ok { before_ms := 10, after_ms := 5, improvement_percent := 50,
            speedup_factor := .finite 2, memory_before_kb := 0,
            memory_after_kb := 0, memory_improvement_percent := 0,
            verdict := .improved } :=
  (compare_results_verdict ⟨1, [1 / 100], 0, 0⟩ ⟨1, [1 / 200], 0, 0⟩ (1 / 100) (1 / 200)
    (by norm_num [BenchmarkResult.avg_time, pymean])
    (by norm_num [BenchmarkResult.avg_time, pymean])
    (by norm_num)).2

/-- C4 counterexample: a baseline whose mean time is zero makes
compare_results raise the division error to its caller, contradicting the
claim that a zero baseline mean time is never propagated as an error. -/
theorem compare_results_zero_mean_raises :
    compare_results ⟨1, [0], 0, 0⟩ ⟨1, [1], 0, 0⟩ = .error .zeroDivisionError := by
  norm_num [compare_results, BenchmarkResult.avg_time, pymean]

/-- C4 amended: a zero baseline peak memory is recovered locally — the
memory delta percentage is defined as 0 and no error is raised — but a
zero baseline mean time is not recovered: compare_results propagates the
division error to the caller. -/
theorem compare_results_degenerate (before after : BenchmarkResult) (b a : ℚ)
    (ha : after.avg_time = some a) :
    (before.avg_time = some b → b ≠ 0 →
      ∃ c : Comparison, compare_results before after = .ok c ∧
        (before.memory_peak = 0 → c.memory_improvement_percent = 0)) ∧
    (before.avg_time = some 0 →
      compare_results before after = .error .zeroDivisionError) := by
  constructor
  · intro hb hbne
    refine ⟨{ before_ms := roundTo 4 (b * 1000)
              after_ms := roundTo 4 (a * 1000)
              improvement_percent := roundTo 2 ((b - a) / b * 100)
              speedup_factor :=
                if 0 < a then .finite (roundTo 2 (b / a)) else .infinite
              memory_before_kb := roundTo 2 ((before.memory_peak : ℚ) / 1024)
              memory_after_kb := roundTo 2 ((after.memory_peak : ℚ) / 1024)
              memory_improvement_percent := roundTo 2
                (if 0 < before.memory_peak then
                  ((before.memory_peak : ℚ) - (after.memory_peak : ℚ))
                    / (before.memory_peak : ℚ) * 100
                else 0)
              verdict :=
                if 0 < (b - a) / b * 100 then .improved
                else if (b - a) / b * 100 < 0 then .regressed
                else .unchanged }, ?_, ?_⟩
    · simp only [compare_results, hb, ha, if_neg hbne]
    · intro hmem
      have hnotpos : ¬ 0 < before.memory_peak := by
        rw [hmem]
        exact lt_irrefl 0
      show roundTo 2 (if 0 < before.memory_peak then _ else 0) = 0
      rw [if_neg hnotpos, roundTo_zero]
  · intro hb0
    simp only [compare_results, hb0, ha, if_pos rfl, if_true]

/-- C4 witness: a baseline with zero recorded peak memory yields a zero
memory delta and no error, while a baseline with zero mean time yields
the division error. -/
theorem compare_results_degenerate_witness :
    (∃ c : Comparison, compare_results ⟨1, [2], 0, 0⟩ ⟨1, [1], 5, 0⟩ = .ok c ∧
      ((⟨1, [2], 0, 0⟩ : BenchmarkResult).memory_peak = 0 →
        c.memory_improvement_percent = 0)) ∧
    compare_results ⟨1, [0, 0], 3, 0⟩ ⟨1, [1], 0, 0⟩ = .error .zeroDivisionError :=
  ⟨(compare_results_degenerate ⟨1, [2], 0, 0⟩ ⟨1, [1], 5, 0⟩ 2 1
      (by norm_num [BenchmarkResult.avg_time, pymean])).1
      (by norm_num [BenchmarkResult.avg_time, pymean]) (by norm_num),
   (compare_results_degenerate ⟨1, [0, 0], 3, 0⟩ ⟨1, [1], 0, 0⟩ 0 1
      (by norm_num [BenchmarkResult.avg_time, pymean])).2
      (by norm_num [BenchmarkResult.avg_time, pymean])⟩
